import Mathlib

/-!
Verification of the run-suid privilege-dropping launcher (`src/main.rs`,
`src/nix.rs`, `src/env.rs`) against its specification.

The Rust sources are shallowly embedded.  The filesystem is an abstract input
(a lookup function from paths to metadata or an I/O error), machine integers
(u8 exit codes, u32 uids, gids and mode bits, i32 signal numbers and pids) are
modelled as `Nat`: every value involved is small and nonnegative, so no
wrap-around arithmetic arises.  Paths are lists of components, mirroring
`PathBuf::push`, and strings are lists of characters.
-/

namespace RunSuid

/-- A filesystem path as its list of components; `PathBuf::push` appends one
component. -/
abbrev Path := List (List Char)

/-- The kind of a filesystem object, as reported by `Metadata::is_dir` and
`Metadata::is_file`; `other` covers every remaining kind (symlink-free, since
the executable path is canonicalized before use). -/
inductive FKind where
  | file
  | dir
  | other
deriving DecidableEq, Repr

/-- The slice of `std::fs::Metadata` that the program reads: the owner uid
(`metadata.uid()`), the object kind, and the permission mode bits
(`metadata.permissions().mode()`). -/
structure Meta where
  uid : Nat
  kind : FKind
  mode : Nat
deriving DecidableEq, Repr

/-- The two classes of `std::io::Error` the program distinguishes:
`ErrorKind::NotFound` and everything else (src/main.rs line 168). -/
inductive IoErr where
  | notFound
  | otherErr
deriving DecidableEq, Repr

/-- An abstract filesystem: metadata lookup by path, possibly failing. -/
abbrev Fs := Path → Except IoErr Meta

/-! Mode-bit policy constants, src/nix.rs lines 40-43. -/

def PERM_FILE_MASK : Nat := 0o4522
def PERM_FILE_EXPECTED : Nat := 0o4500
def PERM_DIR_MASK : Nat := 0o522
def PERM_DIR_EXPECTED : Nat := 0o500

/-- The mode check inside `file_owner` (src/nix.rs lines 48-54): a directory
is secure when `mode & PERM_DIR_MASK == PERM_DIR_EXPECTED`, a regular file
when `mode & PERM_FILE_MASK == PERM_FILE_EXPECTED`, and every other kind of
object is insecure. -/
def secure_mode (kind : FKind) (m : Nat) : Bool :=
  match kind with
  | .dir => m &&& PERM_DIR_MASK == PERM_DIR_EXPECTED
  | .file => m &&& PERM_FILE_MASK == PERM_FILE_EXPECTED
  | .other => false

/-- `file_owner` (src/nix.rs lines 45-57): read the metadata of `path` and
return `(owner uid, metadata, secure)`. -/
def file_owner (fs : Fs) (path : Path) : Except IoErr (Nat × Meta × Bool) :=
  match fs path with
  | .error e => .error e
  | .ok metadata => .ok (metadata.uid, metadata, secure_mode metadata.kind metadata.mode)

/-- Rust `file_name.split('.')`: the segments of the string between dots.
Always nonempty; the empty string splits to `[[]]`, and a trailing or leading
dot produces an empty segment, exactly as in Rust. -/
def splitDot : List Char → List (List Char)
  | [] => [[]]
  | c :: rest =>
    let r := splitDot rest
    if c = '.' then [] :: r
    else (c :: r.headI) :: r.tail

/-- `sibling_target` (src/nix.rs lines 59-70): take the last `.`-separated
segment `a` of the file name; if it starts at position `pos ≠ 0` the target
name is `file_name[..pos-1] ++ ".run-suid." ++ file_name[pos..]`, otherwise it
is `file_name ++ ".run-suid"`; the name is pushed onto the parent path. -/
def sibling_target (parent : Path) (file_name : List Char) : Path :=
  match (splitDot file_name).getLast? with
  | some a =>
    let pos := file_name.length - a.length
    if pos ≠ 0 then
      parent ++ [file_name.take (pos - 1) ++ ".run-suid.".toList ++ file_name.drop pos]
    else
      parent ++ [file_name ++ ".run-suid".toList]
  | none => parent ++ [file_name ++ ".run-suid".toList]

/-! Exit-code constants, src/main.rs lines 15-23. -/

def RET_GENERIC_ERROR : Nat := 32 ||| 1
def RET_ENV_ERROR : Nat := 32 ||| 2
def RET_NO_TARGET : Nat := 32 ||| 3
def RET_OWNER_EXEC : Nat := 32 ||| 8 ||| 0
def RET_PERM_EXEC : Nat := 32 ||| 8 ||| 1
def RET_OWNER_PARENT : Nat := 32 ||| 8 ||| 2
def RET_PERM_PARENT : Nat := 32 ||| 8 ||| 3
def RET_OWNER_TARGET : Nat := 32 ||| 6
def RET_PERM_TARGET : Nat := 32 ||| 6

/-- The authorization chain of `main` (src/main.rs lines 89-180), starting
from the canonicalized executable path `exe` with effective uid `euid`.  The
result is either a denial exit code or the validated `(target, target uid)`
pair.  The parent of the canonical executable path is its list of components
without the last one; the `None` arm of Rust `Path::parent` is unreachable for
a canonical file path and is not modelled. -/
def authorize (fs : Fs) (euid : Nat) (exe : Path) : Sum Nat (Path × Nat) :=
  match file_owner fs exe with
  | .error _ => .inl RET_ENV_ERROR
  | .ok (exe_uid, m, exe_ok) =>
    if exe_ok then
      if m.kind = FKind.file then
        match exe.getLast? with
        | none => .inl RET_ENV_ERROR
        | some exe_name =>
          if euid ≠ exe_uid then .inl RET_OWNER_EXEC
          else
            let parent := exe.dropLast
            match file_owner fs parent with
            | .error _ => .inl RET_ENV_ERROR
            | .ok (par_uid, pm, par_ok) =>
              if par_ok then
                if pm.kind = FKind.dir then
                  if euid ≠ par_uid then .inl RET_OWNER_PARENT
                  else
                    let target := sibling_target parent exe_name
                    match file_owner fs target with
                    | .error e =>
                      if e = IoErr.notFound then .inl RET_NO_TARGET
                      else .inl RET_ENV_ERROR
                    | .ok (tar_uid, tm, tar_ok) =>
                      if tar_ok then
                        if tm.kind = FKind.file then
                          if euid ≠ 0 ∧ euid ≠ tar_uid then .inl RET_OWNER_TARGET
                          else .inr (target, tar_uid)
                        else .inl RET_ENV_ERROR
                      else .inl RET_PERM_TARGET
                else .inl RET_ENV_ERROR
              else .inl RET_PERM_PARENT
      else .inl RET_ENV_ERROR
    else .inl RET_PERM_EXEC

/-- `Opts` (src/main.rs lines 25-30), assembled after authorization succeeds:
`uid` is the validated target owner, `gid` the launcher's effective gid. -/
structure Opts where
  verbose : Bool
  dry_run : Bool
  uid : Nat
  gid : Nat
deriving DecidableEq, Repr

/-- The slice of `std::process::Command` the program manipulates: program,
argument list, environment (an association list in insertion order), working
directory, and the credential requests of `CommandExt::uid` /
`CommandExt::gid` — `none` when never requested, in which case spawning keeps
the spawning process's credentials. -/
structure Cmd where
  program : Path
  args : List (List Char)
  envs : List (List Char × List Char)
  cwd : Option Path
  uid : Option Nat
  gid : Option Nat
deriving DecidableEq, Repr

/-- `Command::new(program)`: a fresh command that would inherit the ambient
environment and requests no credential change. -/
def Cmd.new (program : Path) (ambient : List (List Char × List Char)) : Cmd :=
  { program := program, args := [], envs := ambient, cwd := none, uid := none, gid := none }

/-- `Command::env_clear`. -/
def Cmd.env_clear (c : Cmd) : Cmd := { c with envs := [] }

/-- `Command::env key value`: replace any existing binding of `key`, keeping
the new binding. -/
def Cmd.env (c : Cmd) (key value : List Char) : Cmd :=
  { c with envs := (c.envs.filter (fun kv => decide (kv.1 ≠ key))) ++ [(key, value)] }

/-- The allowlist `PATHS` (src/nix.rs lines 72-79), in priority order. -/
def PATHS : List (List Char) :=
  ["/usr/local/sbin".toList, "/usr/local/bin".toList, "/usr/sbin".toList,
   "/usr/bin".toList, "/sbin".toList, "/bin".toList]

/-- Rust `path.split(':')`, used to collect the components of the inherited
`PATH` value; the `BTreeSet` of the source is only queried for membership,
which the component list provides. -/
def splitColon : List Char → List (List Char)
  | [] => [[]]
  | c :: rest =>
    let r := splitColon rest
    if c = ':' then [] :: r
    else (c :: r.headI) :: r.tail

/-- `prepare_command` (src/nix.rs lines 81-104): append the pass-through
arguments, clear the environment, and set `PATH` to the allowlist entries
present in the inherited `PATH` (absent inherited value giving the empty
component set), joined with `:` in allowlist order, or `/bin` when none
match.  The credential requests `CommandExt::uid(command, opts.uid)` and
`CommandExt::gid(command, opts.gid)` are commented out in the source
(src/nix.rs lines 101-102), so `opts` contributes nothing to the command. -/
def prepare_command (command : Cmd) (args : List (List Char)) (_opts : Opts)
    (inheritedPATH : Option (List Char)) : Cmd :=
  let command := { command with args := command.args ++ args }
  let command := command.env_clear
  let cur_path : List (List Char) :=
    match inheritedPATH with
    | some p => splitColon p
    | none => []
  let path : List Char :=
    PATHS.foldl (fun acc p => if p ∈ cur_path then acc ++ p ++ [':'] else acc) []
  let path : List Char := if path ≠ [] then path.dropLast else "/bin".toList
  command.env "PATH".toList path

/-- The command constructed by `main` for an authorized, non-dry run
(src/main.rs lines 201-207): program `target`, working directory the
canonical current directory, cleared environment, then `prepare_command`. -/
def build_command (target : Path) (cwd : Path) (args : List (List Char)) (opts : Opts)
    (ambient : List (List Char × List Char)) (inheritedPATH : Option (List Char)) : Cmd :=
  let command := Cmd.new target ambient
  let command := { command with cwd := some cwd }
  let command := command.env_clear
  prepare_command command args opts inheritedPATH

/-- Credentials of the spawned child, per the semantics of
`std::os::unix::process::CommandExt`: a recorded `uid`/`gid` request is
applied between fork and exec; with no request the child is created with the
spawning process's effective uid and gid. -/
def spawn_credentials (parent_euid parent_egid : Nat) (c : Cmd) : Nat × Nat :=
  (c.uid.getD parent_euid, c.gid.getD parent_egid)

/-- Rust `Debug` escaping for one character inside a quoted string: quotes
and backslashes are escaped, other printable characters stand for themselves
(control-character escapes do not arise in the inputs considered here). -/
def rustDebugChar (c : Char) : List Char :=
  if c = '"' then ['\\', '"']
  else if c = '\\' then ['\\', '\\']
  else [c]

/-- Rust `{:?}` formatting of a string: the escaped text between quotes. -/
def rustDebugQuote (s : List Char) : List Char :=
  '"' :: (s.map rustDebugChar).flatten ++ ['"']

/-- The textual form of a path — components joined by `/` — as displayed
inside the quotes of `PathBuf`'s `Debug` output. -/
def path_repr (p : Path) : List Char := (List.intersperse "/".toList p).flatten

/-- The line printed in dry-run mode (src/main.rs lines 189-197): the fixed
prefix, the `Debug` form of the target path, then each pass-through argument
preceded by a space in its `Debug` form. -/
def dry_run_line (target : Path) (args : List (List Char)) : List Char :=
  "Dry run: would have succeeded in starting the process: ".toList
    ++ rustDebugQuote (path_repr target)
    ++ (args.map (fun a => ' ' :: rustDebugQuote a)).flatten

/-- The observable outcome of what the launcher does once the authorization
chain has produced the validated target (src/main.rs lines 182-209). -/
structure LaunchOutcome where
  /-- Exit code decided locally; `none` when the process's exit status is the
  child's own and is known only after the child terminates. -/
  exit : Option Nat
  printed : Option (List Char)
  /-- The command handed to `wait_for` for spawning; `none` when nothing is
  spawned. -/
  spawned : Option Cmd
deriving DecidableEq, Repr

/-- src/main.rs lines 182-209: assemble `Opts`, then either print the
dry-run line and return success, or construct the command and hand it to
`wait_for`. -/
def after_authorization (target : Path) (tar_uid : Nat) (egid : Nat)
    (verbose dry_run : Bool) (cwd : Path) (args : List (List Char))
    (ambient : List (List Char × List Char)) (inheritedPATH : Option (List Char)) :
    LaunchOutcome :=
  let opts : Opts := { verbose := verbose, dry_run := dry_run, uid := tar_uid, gid := egid }
  if opts.dry_run then
    { exit := some 0, printed := some (dry_run_line target args), spawned := none }
  else
    { exit := none, printed := none,
      spawned := some (build_command target cwd args opts ambient inheritedPATH) }

/-- The captured signal numbers (src/nix.rs lines 108-138) with their Linux
values: SIGABRT, SIGALRM, SIGCONT, SIGFPE, SIGHUP, SIGILL, SIGINT, SIGPIPE,
SIGPOLL, SIGQUIT, SIGSTOP, SIGSYS, SIGTSTP, SIGTTIN, SIGTTOU, SIGURG,
SIGUSR1, SIGUSR2, SIGXCPU, SIGXFSZ. -/
def CAPTURED_SIGS_CONST : List Nat :=
  [6, 14, 18, 8, 1, 4, 2, 13, 29, 3, 19, 31, 20, 21, 22, 23, 10, 12, 24, 25]

/-- The contents of the `WAIT_FOR_PID` mutex (src/nix.rs line 140) — the
queued signal and the child pid, both `0` when absent — extended with the
history of `libc::kill` calls made while holding the lock, recorded as
`(pid, signal)` pairs in order of delivery. -/
structure RelayState where
  nextSig : Nat
  pid : Nat
  delivered : List (Nat × Nat)
deriving DecidableEq, Repr

/-- The initial relay state: `WAIT_FOR_PID` starts as `(0, 0)` and no signal
has been sent. -/
def relayInit : RelayState := { nextSig := 0, pid := 0, delivered := [] }

/-- `signal_trap` (src/nix.rs lines 143-159) as one whole critical section of
the `WAIT_FOR_PID` lock: with no registered pid the signal is stored in the
queue cell (overwriting any previously stored signal); otherwise it is sent
to the registered pid at once.  The verbose prints are diagnostics only. -/
def signal_trap (signal : Nat) (st : RelayState) : RelayState :=
  if st.pid = 0 then { st with nextSig := signal }
  else { st with delivered := st.delivered ++ [(st.pid, signal)] }

/-- The worker's publish-pid-and-flush-pending critical section
(src/nix.rs lines 194-206): store the child pid and — still under the same
lock — send any queued signal to it and clear the queue cell. -/
def publish_pid (cpid : Nat) (st : RelayState) : RelayState :=
  let st := { st with pid := cpid }
  if st.nextSig ≠ 0 then
    { st with delivered := st.delivered ++ [(st.pid, st.nextSig)], nextSig := 0 }
  else st

/-- One atomic critical section on the `WAIT_FOR_PID` lock: a handler
invocation or the worker's publish step.  The mutex serializes the two
actors, so an execution is a sequence of such events. -/
inductive RelayEvent where
  | sig (s : Nat)
  | publish (cpid : Nat)
deriving DecidableEq, Repr

/-- Apply one critical section. -/
def relayStep (st : RelayState) (e : RelayEvent) : RelayState :=
  match e with
  | .sig s => signal_trap s st
  | .publish cpid => publish_pid cpid st

/-- Run a sequence of critical sections from a state. -/
def relayRun (st : RelayState) (es : List RelayEvent) : RelayState :=
  es.foldl relayStep st

/-! ### Helper lemmas about `splitDot` -/

theorem splitDot_ne_nil (l : List Char) : splitDot l ≠ [] := by
  cases l with
  | nil => simp [splitDot]
  | cons c rest =>
    simp only [splitDot]
    split <;> simp

theorem splitDot_no_dot (l : List Char) (h : '.' ∉ l) : splitDot l = [l] := by
  induction l with
  | nil => rfl
  | cons c rest ih =>
    have hc : c ≠ '.' := fun hc => h (hc ▸ List.mem_cons_self c rest)
    have hr : '.' ∉ rest := fun hm => h (List.mem_cons_of_mem c hm)
    simp [splitDot, hc, ih hr]

theorem splitDot_append_dot (xs ys : List Char) :
    ∃ pre : List (List Char), pre ≠ [] ∧ splitDot (xs ++ '.' :: ys) = pre ++ splitDot ys := by
  induction xs with
  | nil => exact ⟨[[]], by simp, by simp [splitDot]⟩
  | cons c t ih =>
    obtain ⟨pre, hpre, heq⟩ := ih
    by_cases hc : c = '.'
    · exact ⟨[] :: pre, by simp, by simp [splitDot, hc, heq]⟩
    · match pre, hpre with
      | p0 :: ps, _ =>
        refine ⟨(c :: p0) :: ps, by simp, ?_⟩
        simp [splitDot, hc, heq]

theorem splitDot_getLast_ext (stem ext : List Char) (h : '.' ∉ ext) :
    (splitDot (stem ++ '.' :: ext)).getLast? = some ext := by
  obtain ⟨pre, _, heq⟩ := splitDot_append_dot stem ext
  rw [heq, splitDot_no_dot ext h, List.getLast?_concat]

theorem sibling_target_with_ext (p : Path) (stem ext : List Char) (h : '.' ∉ ext) :
    sibling_target p (stem ++ '.' :: ext) = p ++ [stem ++ ".run-suid.".toList ++ ext] := by
  have h1 := splitDot_getLast_ext stem ext h
  have hlen : (stem ++ '.' :: ext).length - ext.length = stem.length + 1 := by
    simp only [List.length_append, List.length_cons]
    omega
  simp only [sibling_target, h1, hlen]
  have htake : (stem ++ '.' :: ext).take (stem.length + 1 - 1) = stem := by
    simp only [Nat.add_sub_cancel]
    exact List.take_left' rfl
  have hdrop : (stem ++ '.' :: ext).drop (stem.length + 1) = ext := by
    rw [List.append_cons stem '.' ext]
    exact List.drop_left' (by simp)
  simp [htake, hdrop]

theorem sibling_target_no_dot (p : Path) (name : List Char) (h : '.' ∉ name) :
    sibling_target p name = p ++ [name ++ ".run-suid".toList] := by
  have h1 : (splitDot name).getLast? = some name := by
    rw [splitDot_no_dot name h]; rfl
  simp [sibling_target, h1]

/-! ### Claim theorems -/

/-- Claim C3: for every file mode `m`, the secure predicate holds for a
regular file iff `m &&& 0o4522 = 0o4500`, holds for a directory iff
`m &&& 0o522 = 0o500`, and is always false for any other filesystem object
kind; representative in-range and out-of-range modes behave accordingly. -/
theorem secure_mode_spec :
    (∀ m : Nat, secure_mode FKind.file m = (m &&& 0o4522 == 0o4500)) ∧
    (∀ m : Nat, secure_mode FKind.dir m = (m &&& 0o522 == 0o500)) ∧
    (∀ m : Nat, secure_mode FKind.other m = false) ∧
    secure_mode FKind.file 0o4500 = true ∧
    secure_mode FKind.file 0o500 = false ∧
    secure_mode FKind.file 0o4520 = false ∧
    secure_mode FKind.dir 0o500 = true ∧
    secure_mode FKind.dir 0o520 = false :=
  ⟨fun _ => rfl, fun _ => rfl, fun _ => rfl, by decide, by decide, by decide,
   by decide, by decide⟩

/-- Claim C7: target resolution is a pure total function of the parent path
and the launcher file name: with a last `.` present the result is
`parent/stem.run-suid.extension`, otherwise `parent/file_name.run-suid`; in
particular `tool ↦ tool.run-suid`, `tool.bin ↦ tool.run-suid.bin`,
`a.b.c ↦ a.b.run-suid.c`, and the same input always yields the same path. -/
theorem sibling_target_spec :
    (∀ (p : Path) (stem ext : List Char), '.' ∉ ext →
      sibling_target p (stem ++ '.' :: ext) = p ++ [stem ++ ".run-suid.".toList ++ ext]) ∧
    (∀ (p : Path) (name : List Char), '.' ∉ name →
      sibling_target p name = p ++ [name ++ ".run-suid".toList]) ∧
    (∀ p : Path, sibling_target p "tool".toList = p ++ ["tool.run-suid".toList]) ∧
    (∀ p : Path, sibling_target p "tool.bin".toList = p ++ ["tool.run-suid.bin".toList]) ∧
    (∀ p : Path, sibling_target p "a.b.c".toList = p ++ ["a.b.run-suid.c".toList]) ∧
    (∀ (p : Path) (name : List Char), sibling_target p name = sibling_target p name) :=
  ⟨sibling_target_with_ext, sibling_target_no_dot,
   fun _ => rfl, fun _ => rfl, fun _ => rfl, fun _ _ => rfl⟩

/-! ### Concrete worlds used by witnesses -/

/-- A concrete canonical executable path. -/
def exePath : Path := ["usr".toList, "bin".toList, "tool".toList]

/-- A filesystem holding exactly the executable, its parent directory, and
the resolved sibling target; everything else is absent. -/
def wfs (emeta pmeta : Meta) (tmeta : Except IoErr Meta) : Fs := fun p =>
  if p = exePath then .ok emeta
  else if p = exePath.dropLast then .ok pmeta
  else if p = sibling_target exePath.dropLast "tool".toList then tmeta
  else .error IoErr.notFound

def emOk : Meta := ⟨1000, FKind.file, 0o4500⟩
def pmOk : Meta := ⟨1000, FKind.dir, 0o500⟩
def tmOk : Meta := ⟨1000, FKind.file, 0o4500⟩
def pmInsecure : Meta := ⟨1000, FKind.dir, 0o520⟩
def pmForeign : Meta := ⟨2000, FKind.dir, 0o500⟩
def tmForeign : Meta := ⟨2000, FKind.file, 0o4500⟩

/-- Witness for C7: the general rules applied at concrete inputs. -/
theorem sibling_target_spec_witness :
    ('.' ∉ "bin".toList ∧
      sibling_target [] ("tool".toList ++ '.' :: "bin".toList)
        = [] ++ ["tool".toList ++ ".run-suid.".toList ++ "bin".toList]) ∧
    ('.' ∉ "tool".toList ∧
      sibling_target [] "tool".toList = [] ++ ["tool".toList ++ ".run-suid".toList]) :=
  ⟨⟨by decide, sibling_target_spec.1 [] "tool".toList "bin".toList (by decide)⟩,
   ⟨by decide, sibling_target_spec.2.1 [] "tool".toList (by decide)⟩⟩

/-- Claim C4: when every check up to and including the target's kind and
permission check passes, the target-owner step authorizes iff the effective
uid equals the target owner or is root (uid 0); any non-root effective uid
with a mismatched target owner is denied with the target-owner reason. -/
theorem authorize_target_owner (fs : Fs) (euid : Nat) (exe : Path) (exe_name : List Char)
    (em pm tm : Meta)
    (hexe : fs exe = .ok em) (hek : em.kind = FKind.file)
    (hes : secure_mode em.kind em.mode = true) (heu : em.uid = euid)
    (hname : exe.getLast? = some exe_name)
    (hpar : fs exe.dropLast = .ok pm) (hpk : pm.kind = FKind.dir)
    (hps : secure_mode pm.kind pm.mode = true) (hpu : pm.uid = euid)
    (htar : fs (sibling_target exe.dropLast exe_name) = .ok tm)
    (htk : tm.kind = FKind.file) (hts : secure_mode tm.kind tm.mode = true) :
    (authorize fs euid exe = .inr (sibling_target exe.dropLast exe_name, tm.uid)
      ↔ (euid = tm.uid ∨ euid = 0)) ∧
    (euid ≠ 0 → euid ≠ tm.uid → authorize fs euid exe = .inl RET_OWNER_TARGET) := by
  have hes' : secure_mode FKind.file em.mode = true := hek ▸ hes
  have hps' : secure_mode FKind.dir pm.mode = true := hpk ▸ hps
  have hts' : secure_mode FKind.file tm.mode = true := htk ▸ hts
  constructor
  · by_cases hz : euid = 0 <;> by_cases ht : euid = tm.uid <;>
      simp [authorize, file_owner, hexe, hpar, htar, hname, hek, hes', hpk, hps', htk, hts',
        heu, hpu, hz, ht]
  · intro h0 hne
    simp [authorize, file_owner, hexe, hpar, htar, hname, hek, hes', hpk, hps', htk, hts',
      heu, hpu, h0, hne]

/-- Witness for C4: in a concrete world where every prior check passes, a
matching owner (uid 1000) authorizes, and a non-root caller (uid 1000) with a
target owned by uid 2000 is denied with the target-owner reason. -/
theorem authorize_target_owner_witness :
    (authorize (wfs emOk pmOk (Except.ok tmOk)) 1000 exePath
        = .inr (sibling_target exePath.dropLast "tool".toList, tmOk.uid)
      ↔ (1000 = tmOk.uid ∨ 1000 = 0)) ∧
    authorize (wfs emOk pmOk (Except.ok tmForeign)) 1000 exePath = .inl RET_OWNER_TARGET :=
  ⟨(authorize_target_owner (wfs emOk pmOk (Except.ok tmOk)) 1000 exePath "tool".toList
      emOk pmOk tmOk rfl rfl rfl rfl rfl rfl rfl rfl rfl rfl rfl rfl).1,
   (authorize_target_owner (wfs emOk pmOk (Except.ok tmForeign)) 1000 exePath "tool".toList
      emOk pmOk tmForeign rfl rfl rfl rfl rfl rfl rfl rfl rfl rfl rfl rfl).2
     (by decide) (by decide)⟩

/-- Claim C5: the chain checks executable, then parent directory, then
target; whenever the executable checks pass and a parent-directory check
fails — whatever the state of the target — the reported denial is the
parent-directory category (42 or 43), which is distinct from every generic or
target-related code. -/
theorem authorize_parent_denial (fs : Fs) (euid : Nat) (exe : Path) (exe_name : List Char)
    (em : Meta)
    (hexe : fs exe = .ok em) (hek : em.kind = FKind.file)
    (hes : secure_mode em.kind em.mode = true) (heu : em.uid = euid)
    (hname : exe.getLast? = some exe_name) :
    (∀ pm : Meta, fs exe.dropLast = .ok pm → secure_mode pm.kind pm.mode = false →
      authorize fs euid exe = .inl RET_PERM_PARENT) ∧
    (∀ pm : Meta, fs exe.dropLast = .ok pm → secure_mode pm.kind pm.mode = true →
      pm.kind = FKind.dir → pm.uid ≠ euid →
      authorize fs euid exe = .inl RET_OWNER_PARENT) ∧
    (RET_PERM_PARENT = 43 ∧ RET_OWNER_PARENT = 42 ∧
      RET_PERM_PARENT ≠ RET_GENERIC_ERROR ∧ RET_PERM_PARENT ≠ RET_ENV_ERROR ∧
      RET_PERM_PARENT ≠ RET_NO_TARGET ∧ RET_PERM_PARENT ≠ RET_OWNER_EXEC ∧
      RET_PERM_PARENT ≠ RET_PERM_EXEC ∧ RET_PERM_PARENT ≠ RET_OWNER_TARGET ∧
      RET_OWNER_PARENT ≠ RET_GENERIC_ERROR ∧ RET_OWNER_PARENT ≠ RET_ENV_ERROR ∧
      RET_OWNER_PARENT ≠ RET_NO_TARGET ∧ RET_OWNER_PARENT ≠ RET_OWNER_EXEC ∧
      RET_OWNER_PARENT ≠ RET_PERM_EXEC ∧ RET_OWNER_PARENT ≠ RET_OWNER_TARGET) := by
  have hes' : secure_mode FKind.file em.mode = true := hek ▸ hes
  refine ⟨?_, ?_, by decide, by decide, by decide, by decide, by decide, by decide,
    by decide, by decide, by decide, by decide, by decide, by decide, by decide, by decide⟩
  · intro pm hpar hpbad
    simp [authorize, file_owner, hexe, hpar, hname, hek, hes', heu, hpbad]
  · intro pm hpar hps hpk hpu
    have hps' : secure_mode FKind.dir pm.mode = true := hpk ▸ hps
    simp [authorize, file_owner, hexe, hpar, hname, hek, hes', heu, hpk, hps',
      fun h : pm.uid = euid => hpu h]
    intro h
    exact absurd h.symm hpu

/-- Witness for C5: with a secure, caller-owned executable, an insecure
parent directory yields exit 43 and a foreign-owned secure parent yields
exit 42, with a well-formed target present in both worlds. -/
theorem authorize_parent_denial_witness :
    authorize (wfs emOk pmInsecure (Except.ok tmOk)) 1000 exePath = .inl RET_PERM_PARENT ∧
    authorize (wfs emOk pmForeign (Except.ok tmOk)) 1000 exePath = .inl RET_OWNER_PARENT :=
  ⟨(authorize_parent_denial (wfs emOk pmInsecure (Except.ok tmOk)) 1000 exePath
      "tool".toList emOk rfl rfl rfl rfl rfl).1 pmInsecure rfl rfl,
   (authorize_parent_denial (wfs emOk pmForeign (Except.ok tmOk)) 1000 exePath
      "tool".toList emOk rfl rfl rfl rfl rfl).2.1 pmForeign rfl rfl rfl (by decide)⟩

/-- Claim C6: the exit-code taxonomy — 33 generic, 34 environment, 35 no
target, 40/41 executable owner/permission, 42/43 parent owner/permission, 38
for both target owner and target permission — and, at the target step of an
otherwise passing chain, a not-found I/O error exits with the dedicated
code 35 while any other I/O error is an environment error 34. -/
theorem exit_codes_spec :
    RET_GENERIC_ERROR = 33 ∧ RET_ENV_ERROR = 34 ∧ RET_NO_TARGET = 35 ∧
    RET_OWNER_EXEC = 40 ∧ RET_PERM_EXEC = 41 ∧ RET_OWNER_PARENT = 42 ∧
    RET_PERM_PARENT = 43 ∧ RET_OWNER_TARGET = 38 ∧ RET_PERM_TARGET = 38 ∧
    (∀ (fs : Fs) (euid : Nat) (exe : Path) (exe_name : List Char) (em pm : Meta),
      fs exe = .ok em → em.kind = FKind.file → secure_mode em.kind em.mode = true →
      em.uid = euid → exe.getLast? = some exe_name →
      fs exe.dropLast = .ok pm → pm.kind = FKind.dir →
      secure_mode pm.kind pm.mode = true → pm.uid = euid →
      (fs (sibling_target exe.dropLast exe_name) = .error IoErr.notFound →
        authorize fs euid exe = .inl RET_NO_TARGET) ∧
      (fs (sibling_target exe.dropLast exe_name) = .error IoErr.otherErr →
        authorize fs euid exe = .inl RET_ENV_ERROR)) := by
  refine ⟨by decide, by decide, by decide, by decide, by decide, by decide, by decide,
    by decide, by decide, ?_⟩
  intro fs euid exe exe_name em pm hexe hek hes heu hname hpar hpk hps hpu
  have hes' : secure_mode FKind.file em.mode = true := hek ▸ hes
  have hps' : secure_mode FKind.dir pm.mode = true := hpk ▸ hps
  constructor
  · intro htar
    simp [authorize, file_owner, hexe, hpar, htar, hname, hek, hes', hpk, hps', heu, hpu]
  · intro htar
    simp [authorize, file_owner, hexe, hpar, htar, hname, hek, hes', hpk, hps', heu, hpu]

/-- Witness for C6: a missing target exits 35, a target whose metadata fails
with any other I/O error exits 34, in an otherwise passing concrete world. -/
theorem exit_codes_spec_witness :
    authorize (wfs emOk pmOk (Except.error IoErr.notFound)) 1000 exePath
      = .inl RET_NO_TARGET ∧
    authorize (wfs emOk pmOk (Except.error IoErr.otherErr)) 1000 exePath
      = .inl RET_ENV_ERROR :=
  ⟨(exit_codes_spec.2.2.2.2.2.2.2.2.2 (wfs emOk pmOk (Except.error IoErr.notFound)) 1000
      exePath "tool".toList emOk pmOk rfl rfl rfl rfl rfl rfl rfl rfl rfl).1 rfl,
   (exit_codes_spec.2.2.2.2.2.2.2.2.2 (wfs emOk pmOk (Except.error IoErr.otherErr)) 1000
      exePath "tool".toList emOk pmOk rfl rfl rfl rfl rfl rfl rfl rfl rfl).2 rfl⟩

/-! ### Helper lemmas for the environment sanitizer -/

theorem foldl_pathAcc (cur : List (List Char)) (l : List (List Char)) :
    ∀ acc : List Char,
      l.foldl (fun acc p => if p ∈ cur then acc ++ p ++ [':'] else acc) acc
        = acc ++ ((l.filter (fun p => decide (p ∈ cur))).map (fun p => p ++ [':'])).flatten := by
  induction l with
  | nil => intro acc; simp
  | cons x t ih =>
    intro acc
    rw [List.foldl_cons]
    by_cases hx : x ∈ cur
    · rw [if_pos hx, ih]
      simp [hx, List.append_assoc]
    · rw [if_neg hx, ih]
      simp [hx]

theorem flatten_colon (sel : List (List Char)) :
    ((sel.map (fun p => p ++ [':'])).flatten)
      = if sel = [] then [] else List.intercalate [':'] sel ++ [':'] := by
  induction sel with
  | nil => simp
  | cons x t ih =>
    cases t with
    | nil => simp [List.intercalate]
    | cons y t2 =>
      rw [List.map_cons, List.flatten_cons, ih]
      simp [List.intercalate, List.intersperse_cons_cons, List.append_assoc]

/-- The sanitized `PATH` value as the specification describes it: the
allowlist entries occurring among the `:`-separated components of the
inherited value (absent treated as empty), joined with `:` in allowlist
order, with fallback `/bin` when none match. -/
def sanitizedPATH (inh : Option (List Char)) : List Char :=
  if PATHS.filter (fun p => decide (p ∈ splitColon (inh.getD []))) = []
  then "/bin".toList
  else List.intercalate [':'] (PATHS.filter (fun p => decide (p ∈ splitColon (inh.getD []))))

theorem prepare_command_envs (c : Cmd) (args : List (List Char)) (opts : Opts)
    (inh : Option (List Char)) :
    (prepare_command c args opts inh).envs = [("PATH".toList, sanitizedPATH inh)] := by
  cases inh with
  | none => rfl
  | some p =>
    simp only [prepare_command, Cmd.env, Cmd.env_clear]
    rw [foldl_pathAcc (splitColon p) PATHS [], List.nil_append, flatten_colon]
    by_cases hsel : List.filter (fun q => decide (q ∈ splitColon p)) PATHS = []
    · rw [if_pos hsel]
      simp [sanitizedPATH, hsel]
    · rw [if_neg hsel]
      simp [sanitizedPATH, hsel]

/-- Claim C8: the sanitized child `PATH` equals exactly the allowlist
entries that occur as `:`-separated components of the inherited `PATH`
(absent treated as empty), joined with `:` in allowlist order, with fallback
`/bin` when none match; the child's environment holds no other variable; and
the two example values of the specification hold. -/
theorem prepare_command_spec :
    (∀ (c : Cmd) (args : List (List Char)) (opts : Opts) (inh : Option (List Char)),
      (prepare_command c args opts inh).envs = [("PATH".toList, sanitizedPATH inh)]) ∧
    (∀ (target cwd : Path) (args : List (List Char)) (opts : Opts)
      (ambient : List (List Char × List Char)) (inh : Option (List Char)),
      (build_command target cwd args opts ambient inh).envs
        = [("PATH".toList, sanitizedPATH inh)]) ∧
    sanitizedPATH (some "/bin:/opt/custom".toList) = "/bin".toList ∧
    sanitizedPATH none = "/bin".toList ∧
    sanitizedPATH (some "/bin:/usr/bin:/home/me/bin".toList)
      = "/usr/bin:/bin".toList :=
  ⟨prepare_command_envs,
   fun target cwd args opts ambient inh =>
     prepare_command_envs
       { (Cmd.new target ambient) with cwd := some cwd, envs := [] } args opts inh,
   by decide, by decide, by decide⟩

/-! ### Helper lemmas for the dry-run output -/

theorem flatten_mem_chunk {α : Type} (f : List Char → List α) (args : List (List Char))
    (a : List Char) (ha : a ∈ args) :
    ∃ l r : List α, (args.map f).flatten = l ++ f a ++ r := by
  induction args with
  | nil => cases ha
  | cons x t ih =>
    rcases List.mem_cons.mp ha with h | h
    · exact ⟨[], (t.map f).flatten, by simp [h]⟩
    · obtain ⟨l, r, hl⟩ := ih h
      exact ⟨f x ++ l, r, by simp [hl, List.append_assoc]⟩

/-- Claim C9: in dry-run mode the launcher spawns nothing (so no command —
and in particular no credential request — is ever handed to `wait_for`),
exits successfully, and prints one line that contains the `Debug`-quoted
resolved target path and each trailing argument individually quoted. -/
theorem dry_run_spec (target : Path) (tar_uid egid : Nat) (verbose : Bool) (cwd : Path)
    (args : List (List Char)) (ambient : List (List Char × List Char))
    (inh : Option (List Char)) :
    after_authorization target tar_uid egid verbose true cwd args ambient inh
      = { exit := some 0, printed := some (dry_run_line target args), spawned := none } ∧
    (∃ l r : List Char,
      dry_run_line target args = l ++ rustDebugQuote (path_repr target) ++ r) ∧
    (∀ a ∈ args, ∃ l r : List Char,
      dry_run_line target args = l ++ (' ' :: rustDebugQuote a) ++ r) := by
  refine ⟨rfl, ?_, ?_⟩
  · exact ⟨"Dry run: would have succeeded in starting the process: ".toList,
      (args.map (fun a => ' ' :: rustDebugQuote a)).flatten,
      by simp [dry_run_line, List.append_assoc]⟩
  · intro a ha
    obtain ⟨l, r, hl⟩ :=
      flatten_mem_chunk (fun a => ' ' :: rustDebugQuote a) args a ha
    exact ⟨"Dry run: would have succeeded in starting the process: ".toList
        ++ rustDebugQuote (path_repr target) ++ l, r,
      by simp [dry_run_line, hl, List.append_assoc]⟩

/-- Witness for C9: the dry-run outcome at a concrete target and argument
list, with the quoted-argument property instantiated at a concrete member. -/
theorem dry_run_spec_witness :
    (after_authorization (sibling_target [] "tool".toList) 1000 5 false true []
        ["alpha".toList] [] none
      = { exit := some 0,
          printed := some (dry_run_line (sibling_target [] "tool".toList) ["alpha".toList]),
          spawned := none }) ∧
    (∃ l r : List Char,
      dry_run_line (sibling_target [] "tool".toList) ["alpha".toList]
        = l ++ (' ' :: rustDebugQuote "alpha".toList) ++ r) :=
  ⟨(dry_run_spec (sibling_target [] "tool".toList) 1000 5 false []
      ["alpha".toList] [] none).1,
   (dry_run_spec (sibling_target [] "tool".toList) 1000 5 false []
      ["alpha".toList] [] none).2.2 "alpha".toList (by simp)⟩

/-! ### Credentials at spawn (claim C1) -/

def emRoot : Meta := ⟨0, FKind.file, 0o4500⟩
def pmRoot : Meta := ⟨0, FKind.dir, 0o500⟩

/-- A secure regular file necessarily carries the setuid mode bit. -/
theorem secure_file_setuid (m : Nat) (h : m &&& 0o4522 = 0o4500) :
    m &&& 0o4000 = 0o4000 := by
  have h1 : m &&& 0o4000 = (m &&& 0o4522) &&& 0o4000 := by
    rw [Nat.and_assoc]
    congr 1
  rw [h1, h]
  decide

/-- Inversion of a successful authorization: the validated target is a
secure regular file owned by the returned target uid. -/
theorem authorize_inr_target (fs : Fs) (euid : Nat) (exe target : Path) (tar_uid : Nat)
    (h : authorize fs euid exe = .inr (target, tar_uid)) :
    ∃ tm : Meta, fs target = .ok tm ∧ tm.kind = FKind.file ∧ tm.uid = tar_uid ∧
      secure_mode tm.kind tm.mode = true := by
  unfold authorize file_owner at h
  iterate 16 (all_goals (try (split at h <;> try simp at h)))
  rename_i x t_uid tmv tok heqt htok hkind hnot
  obtain ⟨htarget, huid⟩ := h
  rw [htarget] at heqt
  cases hft : fs target with
  | error e => rw [hft] at heqt; simp at heqt
  | ok m =>
    rw [hft] at heqt
    simp only [Except.ok.injEq, Prod.mk.injEq] at heqt
    obtain ⟨h1, h2, h3⟩ := heqt
    subst h2
    exact ⟨m, rfl, hkind, h1.trans huid, h3.trans htok⟩

/-- Counterexample to claim C1 as stated: a run authorized for root
(effective uid 0, target owned by uid 2000) builds a spawn command carrying
no credential request at all — the `CommandExt::uid`/`CommandExt::gid` calls
are commented out in the source — so spawning creates the child with the
supervisor's credentials `(0, 5)`, not with the authorized target
credentials `(2000, 5)`. -/
theorem launch_credentials_counterexample :
    authorize (wfs emRoot pmRoot (Except.ok tmForeign)) 0 exePath
      = .inr (sibling_target exePath.dropLast "tool".toList, 2000) ∧
    (build_command (sibling_target exePath.dropLast "tool".toList) [] []
        ⟨false, false, 2000, 5⟩ [] none).uid = none ∧
    spawn_credentials 0 5
      (build_command (sibling_target exePath.dropLast "tool".toList) [] []
        ⟨false, false, 2000, 5⟩ [] none) ≠ (2000, 5) :=
  ⟨by decide, rfl, by decide⟩

/-- Claim C1 (amended): the supervisor requests no credential change as part
of process creation — the built command always carries `uid = gid = none`,
so the child is created with the supervisor's own effective uid and gid; the
switch to the target owner's uid is instead deferred to the target's setuid
mode bit, which the authorization chain guarantees is set on every
authorized target. -/
theorem launch_credentials_amended :
    (∀ (target cwd : Path) (args : List (List Char)) (opts : Opts)
      (ambient : List (List Char × List Char)) (inh : Option (List Char)),
      (build_command target cwd args opts ambient inh).uid = none ∧
      (build_command target cwd args opts ambient inh).gid = none) ∧
    (∀ (euid egid : Nat) (target cwd : Path) (args : List (List Char)) (opts : Opts)
      (ambient : List (List Char × List Char)) (inh : Option (List Char)),
      spawn_credentials euid egid (build_command target cwd args opts ambient inh)
        = (euid, egid)) ∧
    (∀ (fs : Fs) (euid : Nat) (exe target : Path) (tar_uid : Nat),
      authorize fs euid exe = .inr (target, tar_uid) →
      ∃ tm : Meta, fs target = .ok tm ∧ tm.kind = FKind.file ∧ tm.uid = tar_uid ∧
        tm.mode &&& 0o4000 = 0o4000) := by
  refine ⟨fun _ _ _ _ _ _ => ⟨rfl, rfl⟩, fun _ _ _ _ _ _ _ _ => rfl, ?_⟩
  intro fs euid exe target tar_uid h
  obtain ⟨tm, hft, hkind, huid, hsec⟩ := authorize_inr_target fs euid exe target tar_uid h
  refine ⟨tm, hft, hkind, huid, ?_⟩
  rw [hkind] at hsec
  simp only [secure_mode, PERM_FILE_MASK, PERM_FILE_EXPECTED, beq_iff_eq] at hsec
  exact secure_file_setuid tm.mode hsec

/-- Witness for the amended C1: the authorized-run inversion instantiated in
the concrete root-owned world with a target owned by uid 2000. -/
theorem launch_credentials_amended_witness :
    ∃ tm : Meta,
      wfs emRoot pmRoot (Except.ok tmForeign) (sibling_target exePath.dropLast "tool".toList)
        = .ok tm ∧ tm.kind = FKind.file ∧ tm.uid = 2000 ∧ tm.mode &&& 0o4000 = 0o4000 :=
  launch_credentials_amended.2.2 (wfs emRoot pmRoot (Except.ok tmForeign)) 0 exePath
    (sibling_target exePath.dropLast "tool".toList) 2000 (by decide)

/-! ### Signal relay (claims C2 and C10) -/

/-- Counterexample to claim C2 as stated: two captured signals (SIGINT = 2,
then SIGHUP = 1) arrive before the child pid is registered.  The first is
recorded as pending, but only the most recent one is sent at registration:
no step of the run ever delivers signal 2, although it was queued — it is
left neither queued nor delivered. -/
theorem signal_relay_counterexample :
    (relayRun relayInit [RelayEvent.sig 2]).nextSig = 2 ∧
    relayRun relayInit [RelayEvent.sig 2, RelayEvent.sig 1, RelayEvent.publish 7]
      = { nextSig := 0, pid := 7, delivered := [(7, 1)] } ∧
    ∀ pr ∈ (relayRun relayInit
        [RelayEvent.sig 2, RelayEvent.sig 1, RelayEvent.publish 7]).delivered,
      pr.2 ≠ 2 :=
  ⟨rfl, rfl, by decide⟩

/-- Claim C2 (amended): a captured signal arriving before pid registration
is recorded as pending, overwriting any previously queued signal; the
publish step sends the currently pending (most recent) signal to the child
and clears it within the same critical section; a signal arriving after
registration is forwarded immediately to the child's pid; and every handler
invocation either forwards its signal at once or leaves it as the queued
signal. -/
theorem signal_relay_amended :
    (∀ (st : RelayState) (s : Nat), st.pid = 0 →
      signal_trap s st = { st with nextSig := s }) ∧
    (∀ (st : RelayState) (s : Nat), st.pid ≠ 0 →
      signal_trap s st = { st with delivered := st.delivered ++ [(st.pid, s)] }) ∧
    (∀ (st : RelayState) (cpid : Nat), st.nextSig ≠ 0 →
      publish_pid cpid st
        = { nextSig := 0, pid := cpid, delivered := st.delivered ++ [(cpid, st.nextSig)] }) ∧
    (∀ (st : RelayState) (cpid : Nat), st.nextSig = 0 →
      publish_pid cpid st = { st with pid := cpid }) ∧
    (∀ (st : RelayState) (s : Nat),
      (signal_trap s st).nextSig = s ∨
        (signal_trap s st).delivered = st.delivered ++ [(st.pid, s)]) := by
  refine ⟨?_, ?_, ?_, ?_, ?_⟩
  · intro st s h; simp [signal_trap, h]
  · intro st s h; simp [signal_trap, h]
  · intro st cpid h; simp [publish_pid, h]
  · intro st cpid h; simp [publish_pid, h]
  · intro st s
    by_cases h : st.pid = 0
    · left; simp [signal_trap, h]
    · right; simp [signal_trap, h]

/-- Witness for the amended C2: each clause applied at a concrete state. -/
theorem signal_relay_amended_witness :
    signal_trap 2 relayInit = { relayInit with nextSig := 2 } ∧
    signal_trap 2 { nextSig := 0, pid := 7, delivered := [] }
      = { nextSig := 0, pid := 7, delivered := [(7, 2)] } ∧
    publish_pid 7 { nextSig := 2, pid := 0, delivered := [] }
      = { nextSig := 0, pid := 7, delivered := [(7, 2)] } ∧
    publish_pid 7 relayInit = { relayInit with pid := 7 } :=
  ⟨signal_relay_amended.1 relayInit 2 rfl,
   signal_relay_amended.2.1 ⟨0, 7, []⟩ 2 (by decide),
   signal_relay_amended.2.2.1 ⟨2, 0, []⟩ 7 (by decide),
   signal_relay_amended.2.2.2.1 relayInit 7 rfl⟩

/-- Running only handler invocations from an unregistered state leaves the
pid unregistered, delivers nothing, and keeps the most recent signal (or the
previous queue contents when none arrive) queued. -/
theorem relayRun_sigs (sigs : List Nat) :
    ∀ st : RelayState, st.pid = 0 →
      relayRun st (sigs.map RelayEvent.sig)
        = { st with nextSig := sigs.getLast?.getD st.nextSig } := by
  induction sigs with
  | nil => intro st _; simp [relayRun]
  | cons s t ih =>
    intro st h
    have hstep : relayRun st (RelayEvent.sig s :: t.map RelayEvent.sig)
        = relayRun (signal_trap s st) (t.map RelayEvent.sig) := rfl
    have h2 : signal_trap s st = { st with nextSig := s } := by simp [signal_trap, h]
    rw [List.map_cons, hstep, h2, ih { st with nextSig := s } h]
    cases t with
    | nil => simp
    | cons y t2 =>
      have hy : (y :: t2).getLast? = some ((y :: t2).getLast (by simp)) :=
        List.getLast?_eq_getLast _ (by simp)
      simp [List.getLast?_cons_cons, hy]

/-- Claim C10: the pending cell holds at most one signal — a second
pre-registration arrival overwrites the queued one; once the pid is
published, exactly the most recent pre-registration signal is forwarded, and
any earlier signal differing from it is never delivered; all captured signal
numbers are nonzero, so the `0` sentinel never collides with one. -/
theorem pending_overwrite_spec :
    (∀ (st : RelayState) (s1 s2 : Nat), st.pid = 0 →
      signal_trap s2 (signal_trap s1 st) = { st with nextSig := s2 }) ∧
    (∀ (sigs : List Nat) (cpid : Nat), sigs ≠ [] → (∀ s ∈ sigs, s ≠ 0) → cpid ≠ 0 →
      relayRun relayInit (sigs.map RelayEvent.sig ++ [RelayEvent.publish cpid])
        = { nextSig := 0, pid := cpid, delivered := [(cpid, sigs.getLast?.getD 0)] }) ∧
    (∀ (sigs : List Nat) (cpid s : Nat), sigs ≠ [] → (∀ x ∈ sigs, x ≠ 0) → cpid ≠ 0 →
      s ≠ sigs.getLast?.getD 0 →
      ∀ pr ∈ (relayRun relayInit
          (sigs.map RelayEvent.sig ++ [RelayEvent.publish cpid])).delivered,
        pr.2 ≠ s) ∧
    (∀ s ∈ CAPTURED_SIGS_CONST, s ≠ 0) := by
  have key : ∀ (sigs : List Nat) (cpid : Nat), sigs ≠ [] → (∀ s ∈ sigs, s ≠ 0) → cpid ≠ 0 →
      relayRun relayInit (sigs.map RelayEvent.sig ++ [RelayEvent.publish cpid])
        = { nextSig := 0, pid := cpid, delivered := [(cpid, sigs.getLast?.getD 0)] } := by
    intro sigs cpid hne hnz _
    have hL : sigs.getLast?.getD 0 ≠ 0 := by
      have h1 : sigs.getLast? = some (sigs.getLast hne) := List.getLast?_eq_getLast _ hne
      rw [h1]
      exact hnz _ (List.getLast_mem hne)
    have hrun := relayRun_sigs sigs relayInit rfl
    unfold relayRun at hrun ⊢
    rw [List.foldl_append, hrun]
    simp only [List.foldl_cons, List.foldl_nil, relayStep]
    simp [publish_pid, relayInit, hL]
  refine ⟨?_, key, ?_, by decide⟩
  · intro st s1 s2 h
    simp [signal_trap, h]
  · intro sigs cpid s hne hnz hcp hs pr hpr
    rw [key sigs cpid hne hnz hcp] at hpr
    simp only [List.mem_singleton] at hpr
    rw [hpr]
    exact fun hh => hs hh.symm

/-- Witness for C10: two captured signals (SIGUSR1 = 10, then SIGUSR2 = 12)
queued before registration; only the most recent is delivered when pid 9 is
published, and signal 10 is never delivered. -/
theorem pending_overwrite_spec_witness :
    signal_trap 12 (signal_trap 10 relayInit) = { relayInit with nextSig := 12 } ∧
    relayRun relayInit ([10, 12].map RelayEvent.sig ++ [RelayEvent.publish 9])
      = { nextSig := 0, pid := 9,
          delivered := [(9, ([10, 12] : List Nat).getLast?.getD 0)] } ∧
    ∀ pr ∈ (relayRun relayInit
        ([10, 12].map RelayEvent.sig ++ [RelayEvent.publish 9])).delivered,
      pr.2 ≠ 10 :=
  ⟨pending_overwrite_spec.1 relayInit 10 12 rfl,
   pending_overwrite_spec.2.1 [10, 12] 9 (by decide) (by decide) (by decide),
   pending_overwrite_spec.2.2.1 [10, 12] 9 10 (by decide) (by decide) (by decide)
     (by decide)⟩

end RunSuid
